import Mathlib

/-!
# Verification of `RateCounter` (chain/network/src/peer/rate_counter.rs)

Shallow embedding of the sliding-window rate counter.  Conventions:

* Time (`SystemTime`) is modelled as `Int`, one unit = one millisecond, so the
  60-second window constant `MINUTE` is `60000`.  `SystemTime` subtraction and
  comparison map to `Int` subtraction and comparison.  `SystemTime::now()` is
  not monotone, so operations take their observed clock reading `now : Int` as
  an explicit argument and nothing constrains successive readings.
* `u64` values are natural numbers below `U64 = 2 ^ 64`; the `+=` and `-=`
  updates of `bytes_per_min` are wrapping (release-mode Rust), written with an
  explicit `% U64` (`wsub` is wrapping subtraction).
* `VecDeque<Entry>` is a `List Entry` whose head is the deque front;
  `push_back` appends at the tail (list end), `pop_front` removes the head.
* `fn get_bytes_per_min_and_count_per_min_and_truncate(&mut self)` is modelled
  as a function returning the `TransmittedData` together with the (post-call)
  counter state, so that its effect on the state is observable.
-/

/-- `const MINUTE: Duration = Duration::from_secs(60)`, in milliseconds. -/
def MINUTE : Int := 60000

/-- `2 ^ 64`, the modulus of `u64` arithmetic. -/
def U64 : Nat := 2 ^ 64

/-- u64 wrapping subtraction `a.wrapping_sub b` on `Nat` representatives. -/
def wsub (a b : Nat) : Nat := (a + (U64 - b % U64)) % U64

/-- `struct Entry { bytes: u64, recorded: SystemTime }` -/
structure Entry where
  bytes : Nat
  recorded : Int
deriving DecidableEq

/-- `struct RateCounter { entries: VecDeque<Entry>, bytes_per_min: u64 }` -/
structure RateCounter where
  entries : List Entry
  bytes_per_min : Nat
deriving DecidableEq

/-- `struct TransmittedData { bytes_per_min: u64, count_per_min: usize }` -/
structure TransmittedData where
  bytes_per_min : Nat
  count_per_min : Nat
deriving DecidableEq

/-- `RateCounter::new()` -/
def RateCounter.new : RateCounter := { entries := [], bytes_per_min := 0 }

/-- The guard of the `while` loop in `truncate`: the front entry is stale,
`entry.recorded < now - MINUTE`. -/
def isStale (now : Int) (e : Entry) : Bool := decide (e.recorded < now - MINUTE)

/-- The `while` loop of `fn truncate(&mut self, now: SystemTime)`, acting on
the pair (`bytes_per_min`, `entries`): while the deque is nonempty and the
front entry satisfies `recorded < now - MINUTE`, pop it from the front and
subtract its bytes (u64 `-=`) from the running total. -/
def truncateAux (now : Int) : Nat → List Entry → Nat × List Entry
  | bpm, [] => (bpm, [])
  | bpm, e :: rest =>
    if e.recorded < now - MINUTE then truncateAux now (wsub bpm e.bytes) rest
    else (bpm, e :: rest)

/-- `fn truncate(&mut self, now: SystemTime)`. -/
def RateCounter.truncate (rc : RateCounter) (now : Int) : RateCounter :=
  { entries := (truncateAux now rc.bytes_per_min rc.entries).2,
    bytes_per_min := (truncateAux now rc.bytes_per_min rc.entries).1 }

/-- `fn increment(&mut self, bytes: u64)`: push `Entry { bytes, recorded: now }`
at the back, add `bytes` to `bytes_per_min` (u64 `+=`), then `truncate(now)`.
The clock reading `now` taken at the start of the call is explicit. -/
def RateCounter.increment (rc : RateCounter) (bytes : Nat) (now : Int) : RateCounter :=
  RateCounter.truncate
    { entries := rc.entries ++ [{ bytes := bytes, recorded := now }],
      bytes_per_min := (rc.bytes_per_min + bytes) % U64 }
    now

/-- `fn get_bytes_per_min_and_count_per_min_and_truncate(&mut self)`: despite
its name it only reads `self.bytes_per_min()` and `self.count_per_min()`
(`self.entries.len()`); the body contains no call to `truncate` and no other
mutation, so the returned state is the input state. -/
def RateCounter.get_bytes_per_min_and_count_per_min_and_truncate
    (rc : RateCounter) : TransmittedData × RateCounter :=
  ({ bytes_per_min := rc.bytes_per_min, count_per_min := rc.entries.length }, rc)

/-- A public-API call: `increment(bytes)` observing clock value `now`.
(The read operation does not change the state, so it is irrelevant for
reachability.) -/
def step (rc : RateCounter) (c : Nat × Int) : RateCounter :=
  rc.increment c.1 c.2

/-- The counter state reached from `RateCounter::new()` by the given sequence
of `increment` calls, each paired with the clock value it observes. -/
def run (calls : List (Nat × Int)) : RateCounter :=
  calls.foldl step RateCounter.new

/-- Sum of the `bytes` fields of a list of entries (as an unbounded natural
number). -/
def sumBytes (l : List Entry) : Nat := (l.map Entry.bytes).sum

/-- Checker mirroring the `truncate` loop with exact arithmetic: it returns
`true` iff at every `bytes_per_min -= popped.bytes` step of the sweep the
subtracted value does not exceed the current running total, i.e. the u64
subtraction never underflows. -/
def truncNoUnderflow (now : Int) : Nat → List Entry → Bool
  | _, [] => true
  | bpm, e :: rest =>
    if e.recorded < now - MINUTE then
      decide (e.bytes ≤ bpm) && truncNoUnderflow now (bpm - e.bytes) rest
    else true

/-- Well-formedness of a counter state: every stored byte count is a u64, the
cached total is a u64, and the cached total equals the sum of the stored byte
counts modulo `2 ^ 64`. -/
def WF (rc : RateCounter) : Prop :=
  (∀ e ∈ rc.entries, e.bytes < U64) ∧
    rc.bytes_per_min < U64 ∧
    rc.bytes_per_min = sumBytes rc.entries % U64

/-! ## Basic lemmas about the truncate sweep -/

/-- The entries surviving `truncate` are exactly the original deque with its
maximal stale front segment removed. -/
theorem truncateAux_snd_eq_dropWhile (now : Int) :
    ∀ (l : List Entry) (bpm : Nat),
      (truncateAux now bpm l).2 = l.dropWhile (isStale now) := by
  intro l
  induction l with
  | nil => intro bpm; rfl
  | cons e rest ih =>
    intro bpm
    by_cases h : e.recorded < now - MINUTE
    · rw [truncateAux, if_pos h, List.dropWhile_cons_of_pos (by simpa [isStale] using h)]
      exact ih _
    · rw [truncateAux, if_neg h, List.dropWhile_cons_of_neg (by simpa [isStale] using h)]

theorem truncate_entries (rc : RateCounter) (now : Int) :
    (rc.truncate now).entries = rc.entries.dropWhile (isStale now) :=
  truncateAux_snd_eq_dropWhile now rc.entries rc.bytes_per_min

/-- An entry that is not stale at `now` is never removed by the sweep. -/
theorem mem_dropWhile_of_not_stale (now : Int) :
    ∀ (l : List Entry) (e : Entry), e ∈ l → ¬(e.recorded < now - MINUTE) →
      e ∈ l.dropWhile (isStale now) := by
  intro l
  induction l with
  | nil => intro e he _; cases he
  | cons a rest ih =>
    intro e he hfresh
    by_cases ha : a.recorded < now - MINUTE
    · rw [List.dropWhile_cons_of_pos (by simpa [isStale] using ha)]
      rcases List.mem_cons.mp he with rfl | hmem
      · exact absurd ha hfresh
      · exact ih e hmem hfresh
    · rw [List.dropWhile_cons_of_neg (by simpa [isStale] using ha)]
      exact he

/-! ## The cached-sum invariant -/

/-- Wrapping subtraction undoes a wrapped addition of a u64 summand. -/
theorem wsub_cancel (b S : Nat) (hb : b < U64) :
    wsub ((b + S) % U64) b = S % U64 := by
  unfold wsub
  rw [Nat.mod_eq_of_lt hb, Nat.mod_add_mod]
  have h : b + S + (U64 - b) = S + U64 := by omega
  rw [h, Nat.add_mod_right]

/-- Along the truncate sweep, the running total stays equal (mod `2 ^ 64`) to
the sum of the bytes of the remaining entries, and stays a valid u64. -/
theorem truncateAux_fst_invariant (now : Int) :
    ∀ (l : List Entry) (bpm : Nat),
      (∀ e ∈ l, e.bytes < U64) → bpm < U64 → bpm = sumBytes l % U64 →
      (truncateAux now bpm l).1 = sumBytes (truncateAux now bpm l).2 % U64 ∧
        (truncateAux now bpm l).1 < U64 := by
  intro l
  induction l with
  | nil =>
    intro bpm _ hlt hsum
    exact ⟨hsum, hlt⟩
  | cons e rest ih =>
    intro bpm hbytes hlt hsum
    by_cases h : e.recorded < now - MINUTE
    · rw [truncateAux, if_pos h]
      have hb : e.bytes < U64 := hbytes e (List.mem_cons_self e rest)
      have hsum' : sumBytes (e :: rest) = e.bytes + sumBytes rest := by
        simp [sumBytes]
      have hw : wsub bpm e.bytes = sumBytes rest % U64 := by
        rw [hsum, hsum']
        exact wsub_cancel e.bytes (sumBytes rest) hb
      exact ih (wsub bpm e.bytes)
        (fun x hx => hbytes x (List.mem_cons_of_mem e hx))
        (by rw [hw]; exact Nat.mod_lt _ (by norm_num [U64])) hw
    · rw [truncateAux, if_neg h]
      exact ⟨hsum, hlt⟩

theorem WF_new : WF RateCounter.new := by
  refine ⟨fun e he => absurd he (by simp [RateCounter.new]), ?_, ?_⟩ <;>
    simp [RateCounter.new, sumBytes, U64]

theorem WF_truncate (rc : RateCounter) (now : Int) (h : WF rc) :
    WF (rc.truncate now) := by
  obtain ⟨hbytes, hlt, hsum⟩ := h
  have hmain := truncateAux_fst_invariant now rc.entries rc.bytes_per_min hbytes hlt hsum
  refine ⟨?_, hmain.2, hmain.1⟩
  intro e he
  have hsub : (truncateAux now rc.bytes_per_min rc.entries).2.Sublist rc.entries := by
    rw [truncateAux_snd_eq_dropWhile]
    exact List.dropWhile_sublist (isStale now)
  exact hbytes e (hsub.subset he)

theorem WF_increment (rc : RateCounter) (bytes : Nat) (now : Int)
    (hb : bytes < U64) (h : WF rc) : WF (rc.increment bytes now) := by
  obtain ⟨hbytes, hlt, hsum⟩ := h
  refine WF_truncate _ now ⟨?_, ?_, ?_⟩
  · intro e he
    rcases List.mem_append.mp he with hmem | hmem
    · exact hbytes e hmem
    · rcases List.mem_singleton.mp hmem with rfl
      exact hb
  · exact Nat.mod_lt _ (by norm_num [U64])
  · show (rc.bytes_per_min + bytes) % U64
      = sumBytes (rc.entries ++ [{ bytes := bytes, recorded := now }]) % U64
    have hs : sumBytes (rc.entries ++ [{ bytes := bytes, recorded := now }])
        = sumBytes rc.entries + bytes := by
      simp [sumBytes]
    rw [hs, hsum, Nat.mod_add_mod]

/-- Every state reachable through the public API is well-formed (the read
operation does not change the state, so only `increment` calls matter). -/
theorem WF_run (calls : List (Nat × Int)) (hb : ∀ p ∈ calls, p.1 < U64) :
    WF (run calls) := by
  suffices hgen : ∀ (cs : List (Nat × Int)) (rc : RateCounter),
      (∀ p ∈ cs, p.1 < U64) → WF rc → WF (cs.foldl step rc) by
    exact hgen calls RateCounter.new hb WF_new
  intro cs
  induction cs with
  | nil => intro rc _ h; exact h
  | cons c rest ih =>
    intro rc hcs h
    exact ih (step rc c)
      (fun p hp => hcs p (List.mem_cons_of_mem c hp))
      (WF_increment rc c.1 c.2 (hcs c (List.mem_cons_self c rest)) h)

/-- On a deque sorted by `recorded`, every entry surviving the stale sweep
anchored at `now` is inside the window. -/
theorem dropWhile_fresh_of_sorted (now : Int) :
    ∀ l : List Entry, l.Pairwise (fun a b => a.recorded ≤ b.recorded) →
      ∀ e ∈ l.dropWhile (isStale now), now - MINUTE ≤ e.recorded := by
  intro l
  induction l with
  | nil => intro _ e he; simp at he
  | cons a rest ih =>
    intro hs e he
    by_cases ha : a.recorded < now - MINUTE
    · rw [List.dropWhile_cons_of_pos (by simpa [isStale] using ha)] at he
      exact ih hs.of_cons e he
    · rw [List.dropWhile_cons_of_neg (by simpa [isStale] using ha)] at he
      rcases List.mem_cons.mp he with rfl | hmem
      · exact not_lt.mp ha
      · exact le_trans (not_lt.mp ha) (List.rel_of_pairwise_cons hs hmem)

/-- If the running total dominates the exact sum of the remaining entries, the
sweep never underflows. -/
theorem truncNoUnderflow_of_le (now : Int) :
    ∀ (l : List Entry) (bpm : Nat), sumBytes l ≤ bpm →
      truncNoUnderflow now bpm l = true := by
  intro l
  induction l with
  | nil => intro bpm _; rfl
  | cons e rest ih =>
    intro bpm hle
    have hsum : sumBytes (e :: rest) = e.bytes + sumBytes rest := by simp [sumBytes]
    rw [truncNoUnderflow]
    by_cases h : e.recorded < now - MINUTE
    · rw [if_pos h]
      have h1 : e.bytes ≤ bpm := by omega
      have h2 : sumBytes rest ≤ bpm - e.bytes := by omega
      simp [h1, ih _ h2]
    · rw [if_neg h]

/-! ## Claim theorems -/

/-- C1 (code bug): the read operation
`get_bytes_per_min_and_count_per_min_and_truncate` does NOT perform window
maintenance, contradicting both its own name and the spec.  Evaluation at the
failing input: after a single `increment(100)` observed at clock `0`, the read
returns `(100, 1)` and leaves the state untouched, even though the sole entry
(recorded at `0`) lies outside the 60-second window of a read happening at
clock `70000` (`0 < 70000 - MINUTE`), so the spec requires `(0, 0)`. -/
theorem get_and_truncate_performs_no_eviction :
    ((RateCounter.new.increment 100 0).get_bytes_per_min_and_count_per_min_and_truncate).1
        = { bytes_per_min := 100, count_per_min := 1 } ∧
      ((RateCounter.new.increment 100 0).get_bytes_per_min_and_count_per_min_and_truncate).2
        = RateCounter.new.increment 100 0 ∧
      ((0 : Int) < 70000 - MINUTE) := by
  decide

/-- C2 (confirmed): at every observation point reachable through the public
API, the cached field `bytes_per_min` equals the sum of the `bytes` fields of
the stored entries, the sum being taken in u64 arithmetic (modulo `2 ^ 64`);
whenever the exact sum fits in a u64 the equality is exact.  (The read
operation does not change the state, so `run` over the `increment` calls
covers all observation points.) -/
theorem bytes_per_min_eq_sum_of_entries (calls : List (Nat × Int))
    (hb : ∀ p ∈ calls, p.1 < U64) :
    (run calls).bytes_per_min = sumBytes (run calls).entries % U64 ∧
      (sumBytes (run calls).entries < U64 →
        (run calls).bytes_per_min = sumBytes (run calls).entries) := by
  obtain ⟨-, -, hsum⟩ := WF_run calls hb
  exact ⟨hsum, fun hlt => by rw [hsum, Nat.mod_eq_of_lt hlt]⟩

/-- Witness for C2 at the concrete call sequence
`increment(5) @ 0; increment(7) @ 1000`. -/
theorem bytes_per_min_eq_sum_of_entries_witness :
    (run [(5, 0), (7, 1000)]).bytes_per_min
        = sumBytes (run [(5, 0), (7, 1000)]).entries % U64 ∧
      (sumBytes (run [(5, 0), (7, 1000)]).entries < U64 →
        (run [(5, 0), (7, 1000)]).bytes_per_min
          = sumBytes (run [(5, 0), (7, 1000)]).entries) :=
  bytes_per_min_eq_sum_of_entries [(5, 0), (7, 1000)] (by decide)

/-- C3 (confirmed): the read operation leaves the counter state completely
unchanged — it removes no entries, does not modify `bytes_per_min`, and
performs no window maintenance of any kind. -/
theorem get_and_truncate_leaves_state_unchanged (rc : RateCounter) :
    (rc.get_bytes_per_min_and_count_per_min_and_truncate).2 = rc ∧
      (rc.get_bytes_per_min_and_count_per_min_and_truncate).2.entries = rc.entries ∧
      (rc.get_bytes_per_min_and_count_per_min_and_truncate).2.bytes_per_min
        = rc.bytes_per_min :=
  ⟨rfl, rfl, rfl⟩

/-- C4 (code bug): the window-boundary arithmetic of the sweep is strict as
the spec says — an entry recorded at `0` survives a maintenance pass at
`59999` ms and is evicted by one at `60001` ms — but a *query* at `60001` ms
still counts the entry, because the read operation never runs the sweep. -/
theorem window_boundary_eval :
    ((RateCounter.new.increment 1 0).truncate 59999).entries.length = 1 ∧
      ((RateCounter.new.increment 1 0).truncate 60001).entries = [] ∧
      ((RateCounter.new.increment 1 0).get_bytes_per_min_and_count_per_min_and_truncate).1.count_per_min
        = 1 := by
  decide

/-- C5 counterexample: `increment` does not evict *all* now-stale entries.
After a backward clock jump the deque is out of time order
(`run [(5, 100000), (7, 0)]` holds entries recorded at `100000` and `0`), and
the sweep of a subsequent `increment(3)` observed at clock `70000` stops at
the fresh front entry, retaining the entry recorded at `0` even though it is
stale there (`0 < 70000 - MINUTE`). -/
theorem increment_retains_stale_entry_counterexample :
    ({ bytes := 7, recorded := 0 } : Entry)
        ∈ ((run [(5, 100000), (7, 0)]).increment 3 70000).entries ∧
      ((0 : Int) < 70000 - MINUTE) := by
  decide

/-- C5 (corrected): `increment(b)` observed at clock `now` first appends
exactly one entry `{ bytes := b, recorded := now }` at the tail and adds `b`
to `bytes_per_min` (u64 addition), then runs the sweep, which evicts the
maximal *front segment* of now-stale entries (all stale entries only when the
deque is in time order); there are no error conditions, and the new entry —
in particular a zero-byte one — always survives the sweep, so it is counted
until it expires. -/
theorem increment_spec_amended (rc : RateCounter) (b : Nat) (now : Int) :
    rc.increment b now
        = RateCounter.truncate
            (RateCounter.mk (rc.entries ++ [Entry.mk b now])
              ((rc.bytes_per_min + b) % U64)) now ∧
      (rc.increment b now).entries
        = (rc.entries ++ [Entry.mk b now]).dropWhile (isStale now) ∧
      Entry.mk b now ∈ (rc.increment b now).entries := by
  have h2 : (rc.increment b now).entries
      = (rc.entries ++ [Entry.mk b now]).dropWhile (isStale now) :=
    truncate_entries
      (RateCounter.mk (rc.entries ++ [Entry.mk b now]) ((rc.bytes_per_min + b) % U64)) now
  refine ⟨rfl, h2, ?_⟩
  rw [h2]
  apply mem_dropWhile_of_not_stale
  · exact List.mem_append_right _ (List.mem_singleton.mpr rfl)
  · show ¬(now < now - MINUTE)
    simp only [MINUTE]
    omega

/-- C6 counterexample: after a maintenance pass it is NOT true that every
retained entry is inside the window.  With a backward clock jump the deque
`run [(5, 100000), (7, 0)]` is out of time order; a pass anchored at `120000`
stops at the fresh front entry and retains the entry recorded at `0`, which
violates `recorded >= now - 60s`. -/
theorem truncate_retains_stale_entry_counterexample :
    ¬ (∀ e ∈ ((run [(5, 100000), (7, 0)]).truncate 120000).entries,
        120000 - MINUTE ≤ e.recorded) := by
  decide

/-- C6 (corrected): a maintenance pass anchored at `now` removes a front
segment of the deque (so eviction proceeds strictly in deque order from the
front), every removed entry was stale (`recorded < now - 60s`), and — provided
the deque is sorted by `recorded`, as under a monotone clock — every retained
entry is inside the window (`recorded >= now - 60s`). -/
theorem truncate_window_maintenance_amended (rc : RateCounter) (now : Int) :
    (∃ removed, rc.entries = removed ++ (rc.truncate now).entries ∧
        ∀ e ∈ removed, e.recorded < now - MINUTE) ∧
      (rc.entries.Pairwise (fun a b => a.recorded ≤ b.recorded) →
        ∀ e ∈ (rc.truncate now).entries, now - MINUTE ≤ e.recorded) := by
  constructor
  · refine ⟨rc.entries.takeWhile (isStale now), ?_, ?_⟩
    · rw [truncate_entries, List.takeWhile_append_dropWhile]
    · intro e he
      have := List.mem_takeWhile_imp he
      simpa [isStale] using this
  · intro hsorted
    rw [truncate_entries]
    exact dropWhile_fresh_of_sorted now rc.entries hsorted

/-- Witness for C6 on the sorted two-entry counter
`{ entries := [{2, 0}, {3, 70000}], bytes_per_min := 5 }` with a pass anchored
at `70000`: the entry recorded at `0` is removed as stale, the one recorded at
`70000` is retained and inside the window. -/
theorem truncate_window_maintenance_amended_witness :
    (∃ removed, (RateCounter.mk [Entry.mk 2 0, Entry.mk 3 70000] 5).entries
        = removed
          ++ ((RateCounter.mk [Entry.mk 2 0, Entry.mk 3 70000] 5).truncate 70000).entries ∧
        ∀ e ∈ removed, e.recorded < 70000 - MINUTE) ∧
      ((RateCounter.mk [Entry.mk 2 0, Entry.mk 3 70000] 5).entries.Pairwise
          (fun a b => a.recorded ≤ b.recorded) →
        ∀ e ∈ ((RateCounter.mk [Entry.mk 2 0, Entry.mk 3 70000] 5).truncate 70000).entries,
        70000 - MINUTE ≤ e.recorded) :=
  truncate_window_maintenance_amended
    (RateCounter.mk [Entry.mk 2 0, Entry.mk 3 70000] 5) 70000

/-- C7 (confirmed): an entry whose timestamp is not strictly older than
`now - 60s` — in particular one recorded in the future of `now` after the
clock moved backward — is never evicted by a maintenance pass anchored at
`now`: clock skew cannot cause spurious eviction of recent data. -/
theorem no_spurious_eviction_of_recent_entries (rc : RateCounter) (now : Int)
    (e : Entry) (he : e ∈ rc.entries) (hfresh : now - MINUTE ≤ e.recorded) :
    e ∈ (rc.truncate now).entries := by
  rw [truncate_entries]
  exact mem_dropWhile_of_not_stale now rc.entries e he (not_lt.mpr hfresh)

/-- Witness for C7: a future-dated entry (recorded at `100000`, pass anchored
at `0`) survives the pass. -/
theorem no_spurious_eviction_of_recent_entries_witness :
    Entry.mk 4 100000
      ∈ ((RateCounter.mk [Entry.mk 4 100000] 4).truncate 0).entries :=
  no_spurious_eviction_of_recent_entries
    (RateCounter.mk [Entry.mk 4 100000] 4) 0 (Entry.mk 4 100000) (by decide) (by decide)

/-- C8 (confirmed): under invariant I1 (the cached total equals the exact sum
of the stored byte counts), the `bytes_per_min -= popped.bytes` subtraction of
the maintenance sweep never underflows: at every step of the sweep the
subtracted bytes are at most the current running total. -/
theorem truncate_subtraction_no_underflow (rc : RateCounter) (now : Int)
    (h : rc.bytes_per_min = sumBytes rc.entries) :
    truncNoUnderflow now rc.bytes_per_min rc.entries = true :=
  truncNoUnderflow_of_le now rc.entries rc.bytes_per_min (le_of_eq h.symm)

/-- Witness for C8 on a counter satisfying I1 whose sole entry expires. -/
theorem truncate_subtraction_no_underflow_witness :
    truncNoUnderflow 70000
        (RateCounter.mk [Entry.mk 3 0] 3).bytes_per_min
        (RateCounter.mk [Entry.mk 3 0] 3).entries = true :=
  truncate_subtraction_no_underflow
    (RateCounter.mk [Entry.mk 3 0] 3) 70000 (by decide)

/-- C9 (code bug): `new()` does return an empty counter with
`bytes_per_min = 0` and a fresh counter does report `(0, 0)`; but a counter
whose only activity is older than 60 seconds does NOT report `(0, 0)`,
because the read operation performs no pruning: after `increment(100)`
observed at clock `0`, a read (at any later time, e.g. `70000`) still returns
`(100, 1)`. -/
theorem fresh_counter_reports_zero_eval :
    RateCounter.new = { entries := [], bytes_per_min := 0 } ∧
      (RateCounter.new.get_bytes_per_min_and_count_per_min_and_truncate).1
        = { bytes_per_min := 0, count_per_min := 0 } ∧
      ((RateCounter.new.increment 100 0).get_bytes_per_min_and_count_per_min_and_truncate).1
        = { bytes_per_min := 100, count_per_min := 1 } := by
  decide

/-- C10 counterexample: the deque is not always sorted by `recorded`.
`SystemTime::now()` is not monotone; if the clock moves backward between two
`increment` calls (`run [(1, 100000), (2, 0)]`), the deque holds entries
recorded at `100000` then `0`, out of ascending time order. -/
theorem entries_time_order_counterexample :
    ¬ ((run [(1, 100000), (2, 0)]).entries.Pairwise
        (fun a b => a.recorded ≤ b.recorded)) := by
  decide

/-- C10 (corrected): provided successive calls observe nondecreasing clock
values, the deque is sorted by `recorded` ascending (entries are only ever
appended at the tail stamped with the call's clock value, and the sweep only
removes a front segment). -/
theorem entries_sorted_under_monotone_clock (calls : List (Nat × Int))
    (hmono : (calls.map Prod.snd).Pairwise (fun s t => s ≤ t)) :
    (run calls).entries.Pairwise (fun a b => a.recorded ≤ b.recorded) := by
  suffices hgen : ∀ (cs : List (Nat × Int)) (rc : RateCounter),
      (cs.map Prod.snd).Pairwise (fun s t => s ≤ t) →
      rc.entries.Pairwise (fun a b => a.recorded ≤ b.recorded) →
      (∀ e ∈ rc.entries, ∀ c ∈ cs, e.recorded ≤ c.2) →
      (cs.foldl step rc).entries.Pairwise (fun a b => a.recorded ≤ b.recorded) by
    refine hgen calls RateCounter.new hmono ?_ ?_ <;> simp [RateCounter.new]
  intro cs
  induction cs with
  | nil => intro rc _ hs _; exact hs
  | cons c rest ih =>
    intro rc hmono hs hbound
    rw [List.map_cons] at hmono
    have hentries : (step rc c).entries
        = (rc.entries ++ [Entry.mk c.1 c.2]).dropWhile (isStale c.2) :=
      truncate_entries
        (RateCounter.mk (rc.entries ++ [Entry.mk c.1 c.2]) ((rc.bytes_per_min + c.1) % U64)) c.2
    have happend : (rc.entries ++ [Entry.mk c.1 c.2]).Pairwise
        (fun a b => a.recorded ≤ b.recorded) := by
      rw [List.pairwise_append]
      refine ⟨hs, List.pairwise_singleton _ _, ?_⟩
      intro a ha b hb
      rcases List.mem_singleton.mp hb with rfl
      exact hbound a ha c (List.mem_cons_self c rest)
    have hsorted' : (step rc c).entries.Pairwise
        (fun a b => a.recorded ≤ b.recorded) := by
      rw [hentries]
      exact happend.sublist (List.dropWhile_sublist _)
    refine ih (step rc c) hmono.of_cons hsorted' ?_
    intro e he c' hc'
    have hmem : e ∈ rc.entries ++ [Entry.mk c.1 c.2] := by
      rw [hentries] at he
      exact (List.dropWhile_sublist _).subset he
    rcases List.mem_append.mp hmem with hold | hnew
    · exact hbound e hold c' (List.mem_cons_of_mem c hc')
    · rcases List.mem_singleton.mp hnew with rfl
      exact List.rel_of_pairwise_cons hmono (List.mem_map_of_mem Prod.snd hc')

/-- Witness for C10 at the monotone call sequence
`increment(1) @ 0; increment(2) @ 5000`. -/
theorem entries_sorted_under_monotone_clock_witness :
    (run [(1, 0), (2, 5000)]).entries.Pairwise
        (fun a b => a.recorded ≤ b.recorded) :=
  entries_sorted_under_monotone_clock [(1, 0), (2, 5000)] (by decide)
